import Mathlib

/-!
Shallow embedding of the product-provenance core of
`src/backend/src/services/solana.js` (class `SolanaService`), together with
theorems settling the frozen claims about it.

External effects are made explicit parameters:
* `Date.now()` becomes a `now : Nat` argument of each mutation;
* the signature produced by `generateTransactionSignature` becomes a
  `sig : String` argument of each mutation (the generator itself is embedded
  separately, with the network attempt and the random bytes as inputs);
* `Keypair.generate().publicKey.toString()` in `createProduct`'s return value
  becomes an `account : String` argument.
-/

namespace TrueSource

/-! ## Base58 encoding (`SolanaService.encodeBase58`, lines 86-105) -/

/-- The 58-character alphabet from line 87 of `solana.js`. -/
def base58Alphabet : List Char :=
  "123456789ABCDEFGHJKLMNPQRSTUVWXYZabcdefghijkmnopqrstuvwxyz".data

/-- Lookup `ALPHABET[i]` of the source; out-of-range (never reached) defaults. -/
def alphaChar (i : Nat) : Char := base58Alphabet.getD i '?'

/-- Conversion `BigInt('0x' + bytes.toString('hex'))`: the byte buffer read as a
big-endian base-256 integer (bytes are values `0..255`). -/
def bytesToNat (bytes : List Nat) : Nat :=
  bytes.foldl (fun acc b => acc * 256 + b) 0

/-- The `while (num > 0)` loop of lines 93-97, which prepends
`ALPHABET[num % 58]` and divides `num` by 58 until it reaches zero.
Structural recursion on a fuel argument so that the kernel can evaluate it;
`num` itself is always enough fuel since `num / 58 < num`. -/
def encodeLoopF : Nat → Nat → List Char → List Char
  | 0, _, acc => acc
  | _ + 1, 0, acc => acc
  | fuel + 1, num + 1, acc =>
      encodeLoopF fuel ((num + 1) / 58) (alphaChar ((num + 1) % 58) :: acc)

/-- The digit loop with its fuel instantiated. -/
def encodeLoop (num : Nat) (acc : List Char) : List Char :=
  encodeLoopF num num acc

/-- Value of `encodeBase58` (lines 86-105) on a buffer for which the
line-90 conversion `BigInt('0x' + bytes.toString('hex'))` succeeds, i.e.
any non-empty buffer: the digit loop, then one `'1'` prepended per leading
zero byte (the `for` loop of lines 100-102).  On the empty buffer the
source instead throws before reaching this computation; `encodeBase58E`
below is the full embedding of the method including that error path.  The
method's one caller (line 77) always passes the 64 fresh random bytes, so
only non-empty buffers reach it in the program. -/
def encodeBase58 (bytes : List Nat) : String :=
  String.mk (List.replicate (bytes.takeWhile (fun b => b == 0)).length '1'
    ++ encodeLoop (bytesToNat bytes) [])

/-- Full embedding of `encodeBase58` (lines 86-105) with its error path:
on the empty buffer, line 90 evaluates `BigInt('0x')`, which throws a
SyntaxError (ECMA-262 StringToBigInt rejects `0x` with no digits) before
any encoding happens; on a non-empty buffer the method returns the
encoding. -/
def encodeBase58E (bytes : List Nat) : Except String String :=
  match bytes with
  | [] => .error "SyntaxError: Cannot convert 0x to a BigInt"
  | _ :: _ => .ok (encodeBase58 bytes)

/-! ### Spec-side model of the encoding algorithm (spec §4.1)

These definitions follow the words of the spec's "Encoding algorithm"
paragraph, for comparison with `encodeBase58` above: the buffer as a big
unsigned base-256 integer written positionally, repeated division by 58
collecting one alphabet character per remainder, and one leading
alphabet-zero-symbol per leading zero byte. -/

/-- Spec: "treat the byte buffer as a big, unsigned base-256 integer",
written positionally (most significant byte first). -/
def specValue : List Nat → Nat
  | [] => 0
  | b :: bs => b * 256 ^ bs.length + specValue bs

/-- Spec: "repeatedly divide by 58, prepending the alphabet character for
each remainder, until the value reaches zero" — the digits of `n` in base
58, most significant first. -/
def specDigits (n : Nat) : List Char :=
  if h : n = 0 then []
  else specDigits (n / 58) ++ [alphaChar (n % 58)]
termination_by n
decreasing_by exact Nat.div_lt_self (Nat.pos_of_ne_zero h) (by omega)

/-- Spec: "one leading alphabet-zero-symbol for every leading zero byte". -/
def specLeadingZeros : List Nat → Nat
  | [] => 0
  | b :: bs => if b = 0 then specLeadingZeros bs + 1 else 0

/-- The encoding algorithm exactly as the spec words it. -/
def encodeBase58Model (bytes : List Nat) : String :=
  String.mk (List.replicate (specLeadingZeros bytes) '1'
    ++ specDigits (specValue bytes))

/-! ## Signature minting (`generateTransactionSignature`, lines 35-81)

The body is one `try/catch`: the attempt to write an anchor transaction to
the external ledger is embedded as an `anchorAttempt : Except String String`
input (`.ok sig` when the network call returns a signature, `.error e` when
anything in the `try` block throws), and `crypto.randomBytes(64)` as a
`randomBytes : List Nat` input. The `description` argument is only logged. -/

def generateTransactionSignature (description : String)
    (anchorAttempt : Except String String) (randomBytes : List Nat) :
    Except String String :=
  match anchorAttempt with
  | .ok signature => .ok signature
  | .error _ => .ok (encodeBase58 randomBytes)

/-! ### Lemmas relating the code's encoder to the spec's algorithm -/

lemma specDigits_pos (n : Nat) (h : n ≠ 0) :
    specDigits n = specDigits (n / 58) ++ [alphaChar (n % 58)] := by
  rw [specDigits]
  simp [h]

lemma encodeLoopF_eq_specDigits (fuel : Nat) :
    ∀ num acc, num ≤ fuel → encodeLoopF fuel num acc = specDigits num ++ acc := by
  induction fuel with
  | zero =>
      intro num acc h
      interval_cases num
      simp [encodeLoopF, specDigits]
  | succ f ih =>
      intro num acc h
      match num with
      | 0 => simp [encodeLoopF, specDigits]
      | n + 1 =>
          rw [encodeLoopF, ih ((n + 1) / 58) _ (by omega),
            specDigits_pos (n + 1) (by omega)]
          simp

lemma encodeLoop_eq_specDigits (num : Nat) (acc : List Char) :
    encodeLoop num acc = specDigits num ++ acc :=
  encodeLoopF_eq_specDigits num num acc le_rfl

lemma bytesToNat_go (bytes : List Nat) :
    ∀ acc, bytes.foldl (fun a b => a * 256 + b) acc
      = acc * 256 ^ bytes.length + specValue bytes := by
  induction bytes with
  | nil => intro acc; simp [specValue]
  | cons b bs ih =>
      intro acc
      simp only [List.foldl_cons, ih, specValue, List.length_cons]
      ring

lemma bytesToNat_eq_specValue (bytes : List Nat) :
    bytesToNat bytes = specValue bytes := by
  simpa [bytesToNat] using bytesToNat_go bytes 0

lemma takeWhile_length_eq_specLeadingZeros (bytes : List Nat) :
    (bytes.takeWhile (fun b => b == 0)).length = specLeadingZeros bytes := by
  induction bytes with
  | nil => simp [specLeadingZeros]
  | cons b bs ih =>
      by_cases hb : b = 0
      · subst hb; simpa [List.takeWhile_cons, specLeadingZeros] using ih
      · simp [List.takeWhile_cons, specLeadingZeros, hb]

lemma encodeBase58_eq_model (bytes : List Nat) :
    encodeBase58 bytes = encodeBase58Model bytes := by
  unfold encodeBase58 encodeBase58Model
  rw [encodeLoop_eq_specDigits, bytesToNat_eq_specValue,
    takeWhile_length_eq_specLeadingZeros, List.append_nil]

lemma specValue_replicate_zero (n : Nat) : specValue (List.replicate n 0) = 0 := by
  induction n with
  | zero => simp [specValue]
  | succ k ih => simp [List.replicate, specValue, ih]

lemma specDigits_zero : specDigits 0 = [] := by
  simp [specDigits]

lemma encodeBase58_replicate_zero (n : Nat) :
    encodeBase58 (List.replicate n 0) = String.mk (List.replicate n '1') := by
  rw [encodeBase58_eq_model]
  unfold encodeBase58Model
  rw [specValue_replicate_zero, specDigits_zero]
  have hz : specLeadingZeros (List.replicate n 0) = n := by
    induction n with
    | zero => simp [specLeadingZeros]
    | succ k ih => simp [List.replicate, specLeadingZeros, ih]
  simp [hz]

/-! ## Data model (`solana.js` transaction records and `SolanaService` state) -/

/-- The `type` field of a transaction record: `'Manufacture'`, `'Transfer'`
or `'Repair'`. -/
inductive EventType where
  | Manufacture
  | Transfer
  | Repair
deriving DecidableEq

/-- A transaction record as constructed at lines 125-132, 173-180 and
220-227.  Fields a given record kind lacks in the JS object are `none`:
`previousOwner` is only set by `transferOwnership`, `metadata` only by
`createProduct` (where `metadata || ''` defaults it) and `recordRepair`. -/
structure Event where
  type : EventType
  timestamp : Nat
  owner : String
  previousOwner : Option String
  metadata : Option String
  productId : String
  signature : String
deriving DecidableEq

/-- The mutable state of `SolanaService`: `productHistory` (a `Map` kept as
an insertion-ordered association list) and `allTransactions`. -/
structure Store where
  productHistory : List (String × List Event)
  allTransactions : List Event
deriving DecidableEq

/-- The state built by the constructor (lines 15-18): both empty. -/
def initialStore : Store := ⟨[], []⟩

/-- Lookup `this.productHistory.get(productId)` / `.has(productId)`. -/
def lookupChain : List (String × List Event) → String → Option (List Event)
  | [], _ => none
  | (k, v) :: rest, pid => if k = pid then some v else lookupChain rest pid

/-- Update `this.productHistory.set(productId, chain)`: a JS `Map.set` replaces the
value of an existing key in place and appends a new key at the end. -/
def setChain : List (String × List Event) → String → List Event →
    List (String × List Event)
  | [], pid, c => [(pid, c)]
  | (k, v) :: rest, pid, c =>
      if k = pid then (pid, c) :: rest else (k, v) :: setChain rest pid c

/-- Return value of `createProduct` (lines 140-143). -/
structure CreateResult where
  signature : String
  account : String
deriving DecidableEq

/-- Return value of `transferOwnership` and `recordRepair`
(lines 189-191 and 236-238). -/
structure TxResult where
  signature : String
deriving DecidableEq

/-! ## Mutations (lines 107-239)

Each mutation returns the JS function's result (`Except` with the thrown
`Error` message on failure) together with the `SolanaService` state after
the call; a throw happens before any mutation, so the state component is
the input state on every failure path. -/

/-- Mutation `createProduct(productId, metadata, manufacturerPublicKey)`,
lines 107-144. -/
def createProduct (s : Store) (productId : String) (metadata : Option String)
    (manufacturerPublicKey : String) (now : Nat) (sig : String)
    (account : String) : Except String CreateResult × Store :=
  if (lookupChain s.productHistory productId).isSome then
    (.error "Product ID already exists", s)
  else
    let transaction : Event :=
      { type := .Manufacture
        timestamp := now
        owner := manufacturerPublicKey
        previousOwner := none
        metadata := some (metadata.getD "")
        productId := productId
        signature := sig }
    (.ok ⟨sig, account⟩,
      { productHistory := setChain s.productHistory productId [transaction]
        allTransactions := s.allTransactions ++ [transaction] })

/-- Mutation `transferOwnership(productId, currentOwner, nextOwner)`, lines 146-192.
The `history[history.length - 1]` read of an empty chain would throw a
`TypeError` in JS; that (unreachable) path is embedded as an error. -/
def transferOwnership (s : Store) (productId currentOwner nextOwner : String)
    (now : Nat) (sig : String) : Except String TxResult × Store :=
  match lookupChain s.productHistory productId with
  | none => (.error "Product ID does not exist", s)
  | some history =>
    match history.getLast? with
    | none => (.error "TypeError: cannot read properties of undefined", s)
    | some latestRecord =>
      if latestRecord.owner ≠ currentOwner then
        (.error ("Ownership verification failed. Current owner is "
          ++ latestRecord.owner ++ ", not " ++ currentOwner), s)
      else
        let transaction : Event :=
          { type := .Transfer
            timestamp := now
            owner := nextOwner
            previousOwner := some currentOwner
            metadata := none
            productId := productId
            signature := sig }
        (.ok ⟨sig⟩,
          { productHistory :=
              setChain s.productHistory productId (history ++ [transaction])
            allTransactions := s.allTransactions ++ [transaction] })

/-- Mutation `recordRepair(productId, owner, metadata)`, lines 194-239. -/
def recordRepair (s : Store) (productId owner : String)
    (metadata : Option String) (now : Nat) (sig : String) :
    Except String TxResult × Store :=
  match lookupChain s.productHistory productId with
  | none => (.error "Product ID does not exist", s)
  | some history =>
    match history.getLast? with
    | none => (.error "TypeError: cannot read properties of undefined", s)
    | some latestRecord =>
      if latestRecord.owner ≠ owner then
        (.error ("Ownership verification failed. Current owner is "
          ++ latestRecord.owner ++ ", not " ++ owner), s)
      else
        let transaction : Event :=
          { type := .Repair
            timestamp := now
            owner := owner
            previousOwner := none
            metadata := metadata
            productId := productId
            signature := sig }
        (.ok ⟨sig⟩,
          { productHistory :=
              setChain s.productHistory productId (history ++ [transaction])
            allTransactions := s.allTransactions ++ [transaction] })

/-! ## Queries (lines 241-301) -/

/-- Query `getProductHistory(productId)`, lines 241-254. -/
def getProductHistory (s : Store) (productId : String) :
    Except String (List Event) × Store :=
  match lookupChain s.productHistory productId with
  | none => (.error "Product ID does not exist", s)
  | some history => (.ok history, s)

/-- Semantics of `array.slice(-limit)` for a non-negative `limit`: the last `limit`
elements, the whole array when `limit` is `0` (since `-0` is `0`) or
exceeds the length. -/
def sliceLast (l : List Event) (limit : Nat) : List Event :=
  if limit = 0 then l else l.drop (l.length - limit)

/-- Query `getRecentTransactions(limit = 10)`, lines 256-264:
`this.allTransactions.slice(-limit).reverse()`. -/
def getRecentTransactions (s : Store) (limit : Nat) : List Event × Store :=
  ((sliceLast s.allTransactions limit).reverse, s)

/-- The JS default argument `limit = 10`. -/
def getRecentTransactionsDefault (s : Store) : List Event × Store :=
  getRecentTransactions s 10

/-- The `filters` object of `getAllTransactions`; absent keys are `none`. -/
structure Filters where
  owner : Option String
  previousOwner : Option String
  startTime : Option Nat
  endTime : Option Nat
deriving DecidableEq

/-- An empty `filters` object (the JS default `filters = {}`). -/
def noFilters : Filters := ⟨none, none, none, none⟩

/-- JS truthiness of an optional string field: present and non-empty. -/
def strTruthy : Option String → Bool
  | some s => !(s == "")
  | none => false

/-- JS truthiness of an optional numeric field: present and non-zero. -/
def natTruthy : Option Nat → Bool
  | some n => n != 0
  | none => false

/-- Case-insensitive substring test:
`hay.toLowerCase().includes(pat.toLowerCase())`. -/
def startsWithChars : List Char → List Char → Bool
  | [], _ => true
  | _ :: _, [] => false
  | a :: as, b :: bs => a == b && startsWithChars as bs

/-- Whether `pat` occurs as a contiguous run inside `hay`. -/
def hasSubChars (pat : List Char) : List Char → Bool
  | [] => startsWithChars pat []
  | c :: rest => startsWithChars pat (c :: rest) || hasSubChars pat rest

/-- Lower-casing as `toLowerCase()` (character-wise). -/
def lowerStr (s : String) : String := String.mk (s.data.map Char.toLower)

/-- Test `hay.toLowerCase().includes(pat.toLowerCase())`. -/
def containsCI (hay pat : String) : Bool :=
  hasSubChars (lowerStr pat).data (lowerStr hay).data

/-- The stable in-place insertion performed by a JS `Array.prototype.sort`
with comparator `(a, b) => b.timestamp - a.timestamp`: an element moves
before the first strictly-older element and after everything at least as
recent, so equal timestamps keep their relative order. -/
def insertDesc (x : Event) : List Event → List Event
  | [] => [x]
  | y :: ys => if y.timestamp < x.timestamp then x :: y :: ys
               else y :: insertDesc x ys

/-- Stable sort by timestamp descending (the line-298 sort). -/
def sortDesc (l : List Event) : List Event :=
  l.foldl (fun acc x => insertDesc x acc) []

/-- Query `getAllTransactions(filters)` with JS default `filters = ` empty object, lines 266-301: each truthy filter
key narrows a copy of `allTransactions`, then the copy is stably sorted by
timestamp descending.  `if (filters.owner)` skips the filter for an absent
or empty-string key, `if (filters.startTime)` for an absent or zero key. -/
def getAllTransactions (s : Store) (filters : Filters) :
    List Event × Store :=
  let t0 := s.allTransactions
  let t1 := if strTruthy filters.owner then
      t0.filter (fun tx => !(tx.owner == "")
        && containsCI tx.owner (filters.owner.getD ""))
    else t0
  let t2 := if strTruthy filters.previousOwner then
      t1.filter (fun tx => match tx.previousOwner with
        | some p => !(p == "") && containsCI p (filters.previousOwner.getD "")
        | none => false)
    else t1
  let t3 := if natTruthy filters.startTime then
      t2.filter (fun tx => filters.startTime.getD 0 ≤ tx.timestamp)
    else t2
  let t4 := if natTruthy filters.endTime then
      t3.filter (fun tx => tx.timestamp ≤ filters.endTime.getD 0)
    else t3
  (sortDesc t4, s)

/-! ## Reachable states and the chain-of-custody invariant -/

/-- States reachable from the constructor state by any sequence of
`createProduct`, `transferOwnership` and `recordRepair` calls (with
arbitrary arguments, clock values, signatures and account keys); a call
that throws leaves the state component equal to its input, so failing
calls are covered as well. -/
inductive Reachable : Store → Prop where
  | init : Reachable initialStore
  | create {s : Store} (pid : String) (md : Option String)
      (own : String) (now : Nat) (sig account : String) :
      Reachable s → Reachable (createProduct s pid md own now sig account).2
  | transfer {s : Store} (pid cur nxt : String) (now : Nat) (sig : String) :
      Reachable s → Reachable (transferOwnership s pid cur nxt now sig).2
  | repair {s : Store} (pid own : String) (md : Option String)
      (now : Nat) (sig : String) :
      Reachable s → Reachable (recordRepair s pid own md now sig).2

/-- The custody relation between adjacent chain events: a Transfer records
the previous event's owner as `previousOwner`, a Repair keeps the owner. -/
def custodyRel (d e : Event) : Prop :=
  (e.type = EventType.Transfer → e.previousOwner = some d.owner) ∧
  (e.type = EventType.Repair → e.owner = d.owner)

/-- A well-formed ProductChain: non-empty, opened by a Manufacture event
without `previousOwner`, and custody-linked between adjacent events. -/
def chainOk (chain : List Event) : Prop :=
  chain ≠ [] ∧
  (∀ h ∈ chain.head?, h.type = EventType.Manufacture ∧ h.previousOwner = none) ∧
  List.Chain' custodyRel chain

/-- The chain-of-custody invariant over the whole store. -/
def StoreInv (s : Store) : Prop :=
  ∀ pid chain, lookupChain s.productHistory pid = some chain → chainOk chain

lemma lookupChain_setChain_self (m : List (String × List Event))
    (pid : String) (c : List Event) :
    lookupChain (setChain m pid c) pid = some c := by
  induction m with
  | nil => simp [setChain, lookupChain]
  | cons kv rest ih =>
      obtain ⟨k, v⟩ := kv
      by_cases hk : k = pid
      · simp [setChain, lookupChain, hk]
      · simp [setChain, lookupChain, hk, ih]

lemma lookupChain_setChain_other (m : List (String × List Event))
    (pid pid' : String) (c : List Event) (h : pid' ≠ pid) :
    lookupChain (setChain m pid c) pid' = lookupChain m pid' := by
  have h' : pid ≠ pid' := Ne.symm h
  induction m with
  | nil => simp [setChain, lookupChain, h']
  | cons kv rest ih =>
      obtain ⟨k, v⟩ := kv
      by_cases hk : k = pid
      · subst hk
        simp [setChain, lookupChain, h']
      · simp [setChain, lookupChain, hk, ih]

/-- Appending a custody-linked event to a well-formed chain keeps it
well-formed. -/
lemma chainOk_append (chain : List Event) (e : Event) (last : Event)
    (hok : chainOk chain) (hlast : chain.getLast? = some last)
    (hrel : custodyRel last e) : chainOk (chain ++ [e]) := by
  obtain ⟨hne, hhead, hchain⟩ := hok
  match chain, hne with
  | c :: cs, _ =>
    refine ⟨by simp, ?_, ?_⟩
    · intro h hh
      simp only [List.cons_append, List.head?_cons, Option.mem_def,
        Option.some.injEq] at hh
      exact hh ▸ hhead c (by simp)
    · rw [List.chain'_append]
      refine ⟨hchain, List.chain'_singleton e, ?_⟩
      intro x hx y hy
      simp only [List.head?_cons, Option.mem_def, Option.some.injEq] at hy
      rw [hlast] at hx
      simp only [Option.mem_def, Option.some.injEq] at hx
      subst hx; subst hy
      exact hrel

lemma createProduct_inv (s : Store) (pid : String) (md : Option String)
    (own : String) (now : Nat) (sig account : String) (hs : StoreInv s) :
    StoreInv (createProduct s pid md own now sig account).2 := by
  intro pid' chain' hl
  unfold createProduct at hl
  split at hl
  · exact hs _ _ hl
  · dsimp only at hl
    by_cases hp : pid' = pid
    · subst hp
      rw [lookupChain_setChain_self] at hl
      cases hl
      refine ⟨by simp, ?_, List.chain'_singleton _⟩
      intro h hh
      simp only [List.head?_cons, Option.mem_def, Option.some.injEq] at hh
      subst hh
      exact ⟨rfl, rfl⟩
    · rw [lookupChain_setChain_other _ _ _ _ hp] at hl
      exact hs _ _ hl

lemma transferOwnership_inv (s : Store) (pid cur nxt : String) (now : Nat)
    (sig : String) (hs : StoreInv s) :
    StoreInv (transferOwnership s pid cur nxt now sig).2 := by
  intro pid' chain' hl
  unfold transferOwnership at hl
  split at hl
  · exact hs _ _ hl
  next history hfind =>
    split at hl
    · exact hs _ _ hl
    next latestRecord hlast =>
      split at hl
      · exact hs _ _ hl
      next hown =>
        dsimp only at hl
        by_cases hp : pid' = pid
        · subst hp
          rw [lookupChain_setChain_self] at hl
          cases hl
          refine chainOk_append history _ latestRecord
            (hs _ history hfind) hlast ?_
          simp only [ne_eq, not_not] at hown
          exact ⟨fun _ => by rw [hown], fun hty => by simp at hty⟩
        · rw [lookupChain_setChain_other _ _ _ _ hp] at hl
          exact hs _ _ hl

lemma recordRepair_inv (s : Store) (pid own : String) (md : Option String)
    (now : Nat) (sig : String) (hs : StoreInv s) :
    StoreInv (recordRepair s pid own md now sig).2 := by
  intro pid' chain' hl
  unfold recordRepair at hl
  split at hl
  · exact hs _ _ hl
  next history hfind =>
    split at hl
    · exact hs _ _ hl
    next latestRecord hlast =>
      split at hl
      · exact hs _ _ hl
      next hown =>
        dsimp only at hl
        by_cases hp : pid' = pid
        · subst hp
          rw [lookupChain_setChain_self] at hl
          cases hl
          refine chainOk_append history _ latestRecord
            (hs _ history hfind) hlast ?_
          simp only [ne_eq, not_not] at hown
          exact ⟨fun hty => by simp at hty, fun _ => hown.symm⟩
        · rw [lookupChain_setChain_other _ _ _ _ hp] at hl
          exact hs _ _ hl

/-! ## Stable-sort lemmas for `sortDesc` -/

lemma mem_insertDesc (x b : Event) (l : List Event) :
    b ∈ insertDesc x l ↔ b = x ∨ b ∈ l := by
  induction l with
  | nil => simp [insertDesc]
  | cons y ys ih =>
      by_cases hc : y.timestamp < x.timestamp
      · rw [insertDesc, if_pos hc]
        simp only [List.mem_cons]
      · rw [insertDesc, if_neg hc]
        simp only [List.mem_cons, ih]
        tauto

lemma pairwise_insertDesc (x : Event) (l : List Event)
    (h : l.Pairwise (fun a b => b.timestamp ≤ a.timestamp)) :
    (insertDesc x l).Pairwise (fun a b => b.timestamp ≤ a.timestamp) := by
  induction l with
  | nil => simp [insertDesc]
  | cons y ys ih =>
      rw [List.pairwise_cons] at h
      obtain ⟨hy, hys⟩ := h
      by_cases hc : y.timestamp < x.timestamp
      · rw [insertDesc, if_pos hc, List.pairwise_cons]
        refine ⟨?_, List.pairwise_cons.2 ⟨hy, hys⟩⟩
        intro b hb
        rcases List.mem_cons.1 hb with hb | hb
        · subst hb; omega
        · have h2 : b.timestamp ≤ y.timestamp := hy b hb
          omega
      · rw [insertDesc, if_neg hc, List.pairwise_cons]
        refine ⟨?_, ih hys⟩
        intro b hb
        rcases (mem_insertDesc x b ys).1 hb with hb | hb
        · subst hb; omega
        · exact hy b hb

lemma filter_insertDesc (x : Event) (t : Nat) (l : List Event)
    (h : l.Pairwise (fun a b => b.timestamp ≤ a.timestamp)) :
    (insertDesc x l).filter (fun e => e.timestamp == t)
      = if x.timestamp == t
        then l.filter (fun e => e.timestamp == t) ++ [x]
        else l.filter (fun e => e.timestamp == t) := by
  induction l with
  | nil => by_cases hx : x.timestamp = t <;> simp [insertDesc, hx]
  | cons y ys ih =>
      rw [List.pairwise_cons] at h
      obtain ⟨hy, hys⟩ := h
      by_cases hc : y.timestamp < x.timestamp
      · rw [insertDesc, if_pos hc]
        by_cases hx : x.timestamp = t
        · have hyt : ¬ y.timestamp = t := by omega
          have hnil : ys.filter (fun e => e.timestamp == t) = [] := by
            rw [List.filter_eq_nil_iff]
            intro a ha
            have := hy a ha
            simp only [beq_iff_eq]
            omega
          simp [List.filter_cons, hx, hyt, hnil]
        · simp [List.filter_cons, hx]
      · rw [insertDesc, if_neg hc]
        by_cases hx : x.timestamp = t
        · by_cases hyt : y.timestamp = t
          · simp [List.filter_cons, hx, hyt, ih hys]
          · simp [List.filter_cons, hx, hyt, ih hys]
        · by_cases hyt : y.timestamp = t
          · simp [List.filter_cons, hx, hyt, ih hys]
          · simp [List.filter_cons, hx, hyt, ih hys]

lemma pairwise_sortDesc_go (l acc : List Event)
    (hacc : acc.Pairwise (fun a b => b.timestamp ≤ a.timestamp)) :
    (l.foldl (fun acc x => insertDesc x acc) acc).Pairwise
      (fun a b => b.timestamp ≤ a.timestamp) := by
  induction l generalizing acc with
  | nil => simpa using hacc
  | cons x xs ih => exact ih _ (pairwise_insertDesc x acc hacc)

lemma filter_sortDesc_go (l : List Event) (t : Nat) :
    ∀ acc, acc.Pairwise (fun a b => b.timestamp ≤ a.timestamp) →
    (l.foldl (fun acc x => insertDesc x acc) acc).filter
        (fun e => e.timestamp == t)
      = acc.filter (fun e => e.timestamp == t)
        ++ l.filter (fun e => e.timestamp == t) := by
  induction l with
  | nil => intro acc _; simp
  | cons x xs ih =>
      intro acc hacc
      rw [List.foldl_cons, ih _ (pairwise_insertDesc x acc hacc),
        filter_insertDesc x t acc hacc]
      by_cases hx : x.timestamp = t
      · simp [List.filter_cons, hx]
      · simp [List.filter_cons, hx]

/-- Output of `sortDesc` is non-increasing in timestamp. -/
lemma pairwise_sortDesc (l : List Event) :
    (sortDesc l).Pairwise (fun a b => b.timestamp ≤ a.timestamp) :=
  pairwise_sortDesc_go l [] (by simp)

/-- Stability of `sortDesc`: the events carrying any fixed timestamp appear in
the output exactly in their input order. -/
lemma filter_sortDesc (l : List Event) (t : Nat) :
    (sortDesc l).filter (fun e => e.timestamp == t)
      = l.filter (fun e => e.timestamp == t) := by
  simpa using filter_sortDesc_go l t [] (by simp)

lemma mem_sortDesc (l : List Event) (e : Event) :
    e ∈ sortDesc l ↔ e ∈ l := by
  have h1 := filter_sortDesc l e.timestamp
  constructor
  · intro he
    have : e ∈ (sortDesc l).filter (fun x => x.timestamp == e.timestamp) :=
      List.mem_filter.2 ⟨he, by simp⟩
    rw [h1] at this
    exact (List.mem_filter.1 this).1
  · intro he
    have : e ∈ l.filter (fun x => x.timestamp == e.timestamp) :=
      List.mem_filter.2 ⟨he, by simp⟩
    rw [← h1] at this
    exact (List.mem_filter.1 this).1

/-! ## The filter conjunction of `getAllTransactions`

`queryAllProvidedMatch` renders the spec sentence for `queryAll` literally:
a filter counts as provided whenever its key is present.
`queryAllTruthyMatch` is the same conjunction restricted to truthy filter
values (non-empty strings, non-zero bounds), which is what the source's
`if (filters.owner)` tests actually implement. -/

/-- A single event's test under the spec's reading of `queryAll` filters,
with "provided" meaning the key is present. -/
def queryAllProvidedMatch (f : Filters) (e : Event) : Bool :=
  (match f.owner with
    | some pat => containsCI e.owner pat
    | none => true)
  && (match f.previousOwner with
    | some pat => match e.previousOwner with
      | some p => containsCI p pat
      | none => false
    | none => true)
  && (match f.startTime with
    | some t => decide (t ≤ e.timestamp)
    | none => true)
  && (match f.endTime with
    | some t => decide (e.timestamp ≤ t)
    | none => true)

/-- The owner conjunct as the code implements it (truthy filter only). -/
def ownerCond (fo : Option String) (e : Event) : Bool :=
  !strTruthy fo || containsCI e.owner (fo.getD "")

/-- The previousOwner conjunct as the code implements it. -/
def prevCond (fp : Option String) (e : Event) : Bool :=
  !strTruthy fp || (match e.previousOwner with
    | some p => containsCI p (fp.getD "")
    | none => false)

/-- The startTime conjunct as the code implements it. -/
def startCond (fs : Option Nat) (e : Event) : Bool :=
  !natTruthy fs || decide (fs.getD 0 ≤ e.timestamp)

/-- The endTime conjunct as the code implements it. -/
def endCond (fe : Option Nat) (e : Event) : Bool :=
  !natTruthy fe || decide (e.timestamp ≤ fe.getD 0)

/-- A single event's test under the conjunction of all truthy filters. -/
def queryAllTruthyMatch (f : Filters) (e : Event) : Bool :=
  ownerCond f.owner e && prevCond f.previousOwner e
    && startCond f.startTime e && endCond f.endTime e

lemma containsCI_empty_hay (pat : String) (hpat : (pat == "") = false) :
    containsCI "" pat = false := by
  unfold containsCI lowerStr hasSubChars
  obtain ⟨pdata⟩ := pat
  match pdata with
  | [] => simp at hpat
  | c :: cs => rfl

lemma guard_contains (pat s : String) (hpat : (pat == "") = false) :
    (!(s == "") && containsCI s pat) = containsCI s pat := by
  cases hs : s == ""
  · simp
  · have hs' : s = "" := by simpa using hs
    subst hs'
    rw [containsCI_empty_hay pat hpat]
    simp

lemma owner_stage_eq (fo : Option String) (l : List Event) :
    (if strTruthy fo = true then
        l.filter (fun tx => !(tx.owner == "") && containsCI tx.owner (fo.getD ""))
      else l)
      = l.filter (ownerCond fo) := by
  cases hfo : strTruthy fo
  · rw [if_neg (by simp), eq_comm, List.filter_eq_self]
    intro a _
    simp [ownerCond, hfo]
  · rw [if_pos rfl]
    refine List.filter_congr ?_
    intro e _
    match fo, hfo with
    | some pat, hfo =>
        have hpat : (pat == "") = false := by
          simpa [strTruthy] using hfo
        simp [ownerCond, strTruthy, hpat, guard_contains pat e.owner hpat]

lemma prev_stage_eq (fp : Option String) (l : List Event) :
    (if strTruthy fp = true then
        l.filter (fun tx => match tx.previousOwner with
          | some p => !(p == "") && containsCI p (fp.getD "")
          | none => false)
      else l)
      = l.filter (prevCond fp) := by
  cases hfp : strTruthy fp
  · rw [if_neg (by simp), eq_comm, List.filter_eq_self]
    intro a _
    simp [prevCond, hfp]
  · rw [if_pos rfl]
    refine List.filter_congr ?_
    intro e _
    match fp, hfp with
    | some pat, hfp =>
        have hpat : (pat == "") = false := by
          simpa [strTruthy] using hfp
        cases hpo : e.previousOwner with
        | none => simp [prevCond, strTruthy, hpat, hpo]
        | some p =>
            simp [prevCond, strTruthy, hpat, hpo, guard_contains pat p hpat]

lemma start_stage_eq (fs : Option Nat) (l : List Event) :
    (if natTruthy fs = true then
        l.filter (fun tx => decide (fs.getD 0 ≤ tx.timestamp))
      else l)
      = l.filter (startCond fs) := by
  cases hfs : natTruthy fs
  · rw [if_neg (by simp), eq_comm, List.filter_eq_self]
    intro a _
    simp [startCond, hfs]
  · rw [if_pos rfl]
    refine List.filter_congr ?_
    intro e _
    simp [startCond, hfs]

lemma end_stage_eq (fe : Option Nat) (l : List Event) :
    (if natTruthy fe = true then
        l.filter (fun tx => decide (tx.timestamp ≤ fe.getD 0))
      else l)
      = l.filter (endCond fe) := by
  cases hfe : natTruthy fe
  · rw [if_neg (by simp), eq_comm, List.filter_eq_self]
    intro a _
    simp [endCond, hfe]
  · rw [if_pos rfl]
    refine List.filter_congr ?_
    intro e _
    simp [endCond, hfe]

/-- Normalization: `getAllTransactions` is the stable descending sort of the GlobalLog
narrowed to the conjunction of the truthy filters. -/
lemma getAllTransactions_fst (s : Store) (f : Filters) :
    (getAllTransactions s f).1
      = sortDesc (s.allTransactions.filter (queryAllTruthyMatch f)) := by
  unfold getAllTransactions
  dsimp only
  rw [owner_stage_eq, prev_stage_eq, start_stage_eq, end_stage_eq,
    List.filter_filter, List.filter_filter, List.filter_filter]
  congr 1
  refine List.filter_congr ?_
  intro e _
  simp only [queryAllTruthyMatch]
  cases ownerCond f.owner e <;> cases prevCond f.previousOwner e <;>
    cases startCond f.startTime e <;> cases endCond f.endTime e <;> rfl

/-! ## Concrete sample states for witnesses and counterexamples -/

/-- The Manufacture event of product `"p"` owned by `"a"` at time 1. -/
def evA : Event :=
  ⟨.Manufacture, 1, "a", none, some "", "p", "m"⟩

/-- The store after `createProduct("p", undefined, "a")` at time 1. -/
def storeA : Store := ⟨[("p", [evA])], [evA]⟩

/-- Two single-event products whose GlobalLog timestamps decrease in
insertion order (the system clock stepped backwards between the calls). -/
def evT5 : Event := ⟨.Manufacture, 5, "x", none, some "", "q5", "s5"⟩

/-- Second event of the clock-regression store, older timestamp. -/
def evT3 : Event := ⟨.Manufacture, 3, "y", none, some "", "q3", "s3"⟩

/-- A store whose GlobalLog is not timestamp-sorted. -/
def storeDesc : Store :=
  ⟨[("q5", [evT5]), ("q3", [evT3])], [evT5, evT3]⟩

/-- A two-event store with non-decreasing timestamps. -/
def storeMono : Store :=
  ⟨[("q3", [evT3]), ("q5", [evT5])], [evT3, evT5]⟩

/-! ## Claims -/

/-- C1: in every store state reachable by any sequence of `createProduct`,
`transferOwnership` and `recordRepair` calls, every ProductChain is
non-empty, its first event has kind Manufacture and no previousOwner, and
adjacent events (d, e) satisfy: a Transfer e has `e.previousOwner
= some d.owner` and a Repair e has `e.owner = d.owner`. -/
theorem claim1_chain_custody_invariant (s : Store) (hs : Reachable s) :
    StoreInv s := by
  induction hs with
  | init =>
      intro pid chain hl
      simp [initialStore, lookupChain] at hl
  | create pid md own now sig account _ ih =>
      exact createProduct_inv _ pid md own now sig account ih
  | transfer pid cur nxt now sig _ ih =>
      exact transferOwnership_inv _ pid cur nxt now sig ih
  | repair pid own md now sig _ ih =>
      exact recordRepair_inv _ pid own md now sig ih

/-- Witness for C1 at a concrete reachable state: one created product. -/
theorem claim1_chain_custody_invariant_witness :
    StoreInv (createProduct initialStore "p" none "a" 1 "m" "k").2 :=
  claim1_chain_custody_invariant _
    (Reachable.create "p" none "a" 1 "m" "k" Reachable.init)

/-- C2: on an existing chain whose last owner differs from the supplied
current owner, `transferOwnership` and `recordRepair` throw the ownership
error, whose message embeds both the actual and the supplied owner, and
the store — chain lengths and GlobalLog included — is unchanged. -/
theorem claim2_ownership_mismatch (s : Store) (pid cur nxt : String)
    (md : Option String) (now now2 : Nat) (sig sig2 : String)
    (chain : List Event) (latest : Event)
    (hc : lookupChain s.productHistory pid = some chain)
    (hl : chain.getLast? = some latest)
    (hne : latest.owner ≠ cur) :
    transferOwnership s pid cur nxt now sig
      = (.error ("Ownership verification failed. Current owner is "
          ++ latest.owner ++ ", not " ++ cur), s)
    ∧ recordRepair s pid cur md now2 sig2
      = (.error ("Ownership verification failed. Current owner is "
          ++ latest.owner ++ ", not " ++ cur), s)
    ∧ (∃ pre mid, ("Ownership verification failed. Current owner is "
          ++ latest.owner ++ ", not " ++ cur)
        = pre ++ latest.owner ++ mid ++ cur)
    ∧ (transferOwnership s pid cur nxt now sig).2.allTransactions
        = s.allTransactions
    ∧ (∀ c, lookupChain
          (transferOwnership s pid cur nxt now sig).2.productHistory pid
        = some c → c.length = chain.length) := by
  have ht : transferOwnership s pid cur nxt now sig
      = (.error ("Ownership verification failed. Current owner is "
          ++ latest.owner ++ ", not " ++ cur), s) := by
    simp [transferOwnership, hc, hl, hne]
  have hr : recordRepair s pid cur md now2 sig2
      = (.error ("Ownership verification failed. Current owner is "
          ++ latest.owner ++ ", not " ++ cur), s) := by
    simp [recordRepair, hc, hl, hne]
  refine ⟨ht, hr,
    ⟨"Ownership verification failed. Current owner is ", ", not ", rfl⟩,
    by rw [ht], ?_⟩
  intro c hcc
  rw [ht] at hcc
  dsimp only at hcc
  rw [hc] at hcc
  cases hcc
  rfl

/-- Witness for C2: transferring `"p"` away from the wrong owner `"b"`. -/
theorem claim2_ownership_mismatch_witness :
    transferOwnership storeA "p" "b" "c" 2 "s"
      = (.error ("Ownership verification failed. Current owner is "
          ++ evA.owner ++ ", not " ++ "b"), storeA)
    ∧ recordRepair storeA "p" "b" (some "note") 3 "s2"
      = (.error ("Ownership verification failed. Current owner is "
          ++ evA.owner ++ ", not " ++ "b"), storeA)
    ∧ (∃ pre mid, ("Ownership verification failed. Current owner is "
          ++ evA.owner ++ ", not " ++ "b")
        = pre ++ evA.owner ++ mid ++ "b")
    ∧ (transferOwnership storeA "p" "b" "c" 2 "s").2.allTransactions
        = storeA.allTransactions
    ∧ (∀ c, lookupChain
          (transferOwnership storeA "p" "b" "c" 2 "s").2.productHistory "p"
        = some c → c.length = [evA].length) :=
  claim2_ownership_mismatch storeA "p" "b" "c" (some "note") 2 3 "s" "s2"
    [evA] evA rfl rfl (by decide)

/-- C3: on a fresh productId the first `createProduct` succeeds, installs a
one-element Manufacture chain owned by the manufacturer, appends the same
event to the GlobalLog, and a second call on the same productId throws the
duplicate error leaving the store unchanged. -/
theorem claim3_createProduct_idempotent_rejecting (s : Store) (pid : String)
    (md md2 : Option String) (own own2 : String) (now now2 : Nat)
    (sig sig2 acct acct2 : String)
    (h : lookupChain s.productHistory pid = none) :
    (createProduct s pid md own now sig acct).1 = .ok ⟨sig, acct⟩
    ∧ lookupChain (createProduct s pid md own now sig acct).2.productHistory pid
        = some [⟨.Manufacture, now, own, none, some (md.getD ""), pid, sig⟩]
    ∧ (createProduct s pid md own now sig acct).2.allTransactions
        = s.allTransactions
          ++ [⟨.Manufacture, now, own, none, some (md.getD ""), pid, sig⟩]
    ∧ createProduct (createProduct s pid md own now sig acct).2 pid md2 own2
          now2 sig2 acct2
        = (.error "Product ID already exists",
            (createProduct s pid md own now sig acct).2) := by
  have h1 : (lookupChain s.productHistory pid).isSome = false := by
    rw [h]; rfl
  refine ⟨?_, ?_, ?_, ?_⟩
  · simp [createProduct, h1]
  · simp [createProduct, h1, lookupChain_setChain_self]
  · simp [createProduct, h1]
  · have h2 : lookupChain
        (createProduct s pid md own now sig acct).2.productHistory pid
        = some [⟨.Manufacture, now, own, none, some (md.getD ""), pid, sig⟩] := by
      simp [createProduct, h1, lookupChain_setChain_self]
    rw [createProduct, if_pos (by rw [h2]; rfl)]

/-- Witness for C3 from the empty constructor state. -/
theorem claim3_createProduct_idempotent_rejecting_witness :
    (createProduct initialStore "p" none "a" 1 "m" "k").1 = .ok ⟨"m", "k"⟩
    ∧ lookupChain
        (createProduct initialStore "p" none "a" 1 "m" "k").2.productHistory "p"
        = some [⟨.Manufacture, 1, "a", none, some ((none : Option String).getD ""), "p", "m"⟩]
    ∧ (createProduct initialStore "p" none "a" 1 "m" "k").2.allTransactions
        = initialStore.allTransactions
          ++ [⟨.Manufacture, 1, "a", none, some ((none : Option String).getD ""), "p", "m"⟩]
    ∧ createProduct (createProduct initialStore "p" none "a" 1 "m" "k").2 "p"
          (some "x") "b" 2 "m2" "k2"
        = (.error "Product ID already exists",
            (createProduct initialStore "p" none "a" 1 "m" "k").2) :=
  claim3_createProduct_idempotent_rejecting initialStore "p" none (some "x")
    "a" "b" 1 2 "m" "m2" "k" "k2" rfl

/-- C4: signature minting never fails to its caller — a successful anchor
attempt's signature is returned as-is, any failed attempt falls back to the
base58 encoding of the 64 random bytes, and in all cases an `.ok` string
is produced. -/
theorem claim4_signature_never_fails :
    (∀ d sg r, generateTransactionSignature d (.ok sg) r = .ok sg)
    ∧ (∀ d e r, generateTransactionSignature d (.error e) r
        = .ok (encodeBase58 r))
    ∧ (∀ d a r, ∃ sg, generateTransactionSignature d a r = .ok sg) := by
  refine ⟨fun d sg r => rfl, fun d e r => rfl, fun d a r => ?_⟩
  cases a with
  | ok sg => exact ⟨sg, rfl⟩
  | error e => exact ⟨encodeBase58 r, rfl⟩

/-- C5 (counterexample to the claim as stated): on the empty buffer the
code throws a SyntaxError (`BigInt('0x')`) while the specified algorithm
yields the empty string, so `encodeBase58` does not implement the spec's
algorithm on every input byte buffer. -/
theorem claim5_encodeBase58_counterexample :
    encodeBase58E [] ≠ .ok (encodeBase58Model [])
    ∧ encodeBase58E [] = .error "SyntaxError: Cannot convert 0x to a BigInt"
    ∧ encodeBase58Model [] = "" := by
  have hm : encodeBase58Model [] = "" := by
    simp [encodeBase58Model, specValue, specLeadingZeros, specDigits_zero]
  exact ⟨by rw [hm]; simp [encodeBase58E], rfl, hm⟩

/-- C5 (amended): on every non-empty byte buffer `encodeBase58` implements
exactly the spec's algorithm (big-endian base-256 value, repeated division
by 58 prepending alphabet characters, one leading '1' per leading zero
byte); the empty buffer instead throws.  An all-zero buffer of length
N ≥ 1 encodes to exactly N '1's, and the byte 0x3A encodes
deterministically to "21", a non-empty string with no leading '1'. -/
theorem claim5_encodeBase58_amended (bytes : List Nat) (hne : bytes ≠ [])
    (n : Nat) (hn : 1 ≤ n) :
    encodeBase58E bytes = .ok (encodeBase58Model bytes)
    ∧ encodeBase58E (List.replicate n 0)
        = .ok (String.mk (List.replicate n '1'))
    ∧ encodeBase58E [0x3A] = .ok "21"
    ∧ encodeBase58E [0x3A] ≠ .ok ""
    ∧ (encodeBase58 [0x3A]).data.head? ≠ some '1' := by
  have h3 : encodeBase58E [0x3A] = .ok "21" := rfl
  refine ⟨?_, ?_, h3, ?_, by decide⟩
  · match bytes, hne with
    | b :: bs, _ =>
        rw [show encodeBase58E (b :: bs) = .ok (encodeBase58 (b :: bs)) from rfl,
          encodeBase58_eq_model]
  · match n, hn with
    | m + 1, _ =>
        rw [show encodeBase58E (List.replicate (m + 1) 0)
            = .ok (encodeBase58 (List.replicate (m + 1) 0)) from rfl,
          encodeBase58_replicate_zero]
  · rw [h3]
    intro h
    exact absurd (Except.ok.inj h) (by decide)

/-- Witness for C5 (amended) at the byte 0x3A and length 1. -/
theorem claim5_encodeBase58_amended_witness :
    encodeBase58E [0x3A] = .ok (encodeBase58Model [0x3A])
    ∧ encodeBase58E (List.replicate 1 0)
        = .ok (String.mk (List.replicate 1 '1'))
    ∧ encodeBase58E [0x3A] = .ok "21"
    ∧ encodeBase58E [0x3A] ≠ .ok ""
    ∧ (encodeBase58 [0x3A]).data.head? ≠ some '1' :=
  claim5_encodeBase58_amended [0x3A] (by decide) 1 (by decide)

/-- C6 (counterexample to the claim as stated): with limit 0 on a one-event
log, `getRecentTransactions` returns 1 entry, not `min 0 1 = 0` (JS
`slice(-0)` is `slice(0)`); and on a store whose GlobalLog timestamps
decrease in insertion order the returned sequence is increasing, not
non-increasing, in timestamp. -/
theorem claim6_getRecent_counterexample :
    ¬ ((getRecentTransactions storeA 0).1.length
        = min 0 storeA.allTransactions.length)
    ∧ ¬ List.Pairwise (fun a b => b.timestamp ≤ a.timestamp)
        (getRecentTransactions storeDesc 2).1 := by
  constructor
  · decide
  · decide

/-- C6 (amended): for every positive limit n and every store whose
GlobalLog timestamps are non-decreasing in insertion order (always the
case under a monotone clock), `getRecentTransactions` returns exactly
`min n total` entries — the last `min n total` GlobalLog entries, newest
first — in non-increasing timestamp order; the JS default limit is 10. -/
theorem claim6_getRecent_amended (s : Store) (n : Nat) (hn : 1 ≤ n)
    (hsorted : List.Pairwise (fun a b => a.timestamp ≤ b.timestamp)
      s.allTransactions) :
    (getRecentTransactions s n).1.length = min n s.allTransactions.length
    ∧ (getRecentTransactions s n).1
        = (s.allTransactions.drop (s.allTransactions.length - n)).reverse
    ∧ List.Pairwise (fun a b => b.timestamp ≤ a.timestamp)
        (getRecentTransactions s n).1
    ∧ getRecentTransactionsDefault s = getRecentTransactions s 10 := by
  have hne : ¬ n = 0 := by omega
  have hform : (getRecentTransactions s n).1
      = (s.allTransactions.drop (s.allTransactions.length - n)).reverse := by
    simp [getRecentTransactions, sliceLast, hne]
  refine ⟨?_, hform, ?_, rfl⟩
  · rw [hform]
    simp only [List.length_reverse, List.length_drop]
    omega
  · rw [hform, List.pairwise_reverse]
    exact hsorted.sublist (List.drop_sublist _ _)

/-- Witness for C6 (amended) on a sorted two-event store with limit 1. -/
theorem claim6_getRecent_amended_witness :
    (getRecentTransactions storeMono 1).1.length
        = min 1 storeMono.allTransactions.length
    ∧ (getRecentTransactions storeMono 1).1
        = (storeMono.allTransactions.drop
            (storeMono.allTransactions.length - 1)).reverse
    ∧ List.Pairwise (fun a b => b.timestamp ≤ a.timestamp)
        (getRecentTransactions storeMono 1).1
    ∧ getRecentTransactionsDefault storeMono
        = getRecentTransactions storeMono 10 :=
  claim6_getRecent_amended storeMono 1 (by decide) (by decide)

/-- C7 (counterexample to the claim as stated): a provided-but-empty
`previousOwner` filter and a provided-but-zero `endTime` filter are both
ignored by the code (JS truthiness), so the Manufacture event — which the
claim's conjunction excludes under either filter — is returned. -/
theorem claim7_queryAll_counterexample :
    ((getAllTransactions storeA ⟨none, some "", none, none⟩).1 = [evA]
      ∧ queryAllProvidedMatch ⟨none, some "", none, none⟩ evA = false)
    ∧ ((getAllTransactions storeA ⟨none, none, none, some 0⟩).1 = [evA]
      ∧ queryAllProvidedMatch ⟨none, none, none, some 0⟩ evA = false) := by
  refine ⟨⟨?_, ?_⟩, ⟨?_, ?_⟩⟩ <;> decide

/-- C7 (amended): `getAllTransactions` returns exactly the GlobalLog events
satisfying the conjunction of all truthy filters (an empty-string owner or
previousOwner filter and a zero startTime or endTime filter are ignored;
events lacking previousOwner never match a truthy previousOwner filter),
sorted by timestamp descending with ties kept in GlobalLog insertion
order: the events at each fixed timestamp appear exactly in log order. -/
theorem claim7_queryAll_amended (s : Store) (f : Filters) :
    List.Pairwise (fun a b => b.timestamp ≤ a.timestamp)
      (getAllTransactions s f).1
    ∧ (∀ t, (getAllTransactions s f).1.filter (fun e => e.timestamp == t)
        = (s.allTransactions.filter (queryAllTruthyMatch f)).filter
            (fun e => e.timestamp == t))
    ∧ (∀ e, e ∈ (getAllTransactions s f).1
        ↔ e ∈ s.allTransactions ∧ queryAllTruthyMatch f e = true) := by
  refine ⟨?_, ?_, ?_⟩
  · rw [getAllTransactions_fst]
    exact pairwise_sortDesc _
  · intro t
    rw [getAllTransactions_fst, filter_sortDesc]
  · intro e
    rw [getAllTransactions_fst, mem_sortDesc, List.mem_filter]

/-- C8 (counterexample to the claim as stated): two transfers of `"p"` to
different next owners return identical values, while the events they
append differ in owner — so the returned value is not the appended
Transfer event (the code returns only `{ signature }`). -/
theorem claim8_return_counterexample :
    (transferOwnership storeA "p" "a" "b" 2 "s").1
        = (transferOwnership storeA "p" "a" "c" 2 "s").1
    ∧ lookupChain
          (transferOwnership storeA "p" "a" "b" 2 "s").2.productHistory "p"
        ≠ lookupChain
          (transferOwnership storeA "p" "a" "c" 2 "s").2.productHistory "p" := by
  constructor
  · rfl
  · decide

/-- C8 (amended): each successful mutation returns a record carrying the
signature of the event it appended — `createProduct` returns
`{ signature, account }` with a fresh account string, `transferOwnership`
and `recordRepair` return `{ signature }` — rather than the Event itself. -/
theorem claim8_mutations_return_signature (s : Store)
    (pid pid2 nxt own : String) (md md2 : Option String) (now : Nat)
    (sig acct : String) (chain : List Event) (latest : Event)
    (hfresh : lookupChain s.productHistory pid = none)
    (hc : lookupChain s.productHistory pid2 = some chain)
    (hl : chain.getLast? = some latest) :
    ((createProduct s pid md own now sig acct).1 = .ok ⟨sig, acct⟩
      ∧ ∃ ev : Event,
          (createProduct s pid md own now sig acct).2.allTransactions
            = s.allTransactions ++ [ev]
          ∧ ev.signature = sig ∧ ev.type = .Manufacture)
    ∧ ((transferOwnership s pid2 latest.owner nxt now sig).1 = .ok ⟨sig⟩
      ∧ ∃ ev : Event,
          (transferOwnership s pid2 latest.owner nxt now sig).2.allTransactions
            = s.allTransactions ++ [ev]
          ∧ ev.signature = sig ∧ ev.type = .Transfer)
    ∧ ((recordRepair s pid2 latest.owner md2 now sig).1 = .ok ⟨sig⟩
      ∧ ∃ ev : Event,
          (recordRepair s pid2 latest.owner md2 now sig).2.allTransactions
            = s.allTransactions ++ [ev]
          ∧ ev.signature = sig ∧ ev.type = .Repair) := by
  have h1 : (lookupChain s.productHistory pid).isSome = false := by
    rw [hfresh]; rfl
  refine ⟨⟨?_, ?_⟩, ⟨?_, ?_⟩, ⟨?_, ?_⟩⟩
  · simp [createProduct, h1]
  · exact ⟨⟨.Manufacture, now, own, none, some (md.getD ""), pid, sig⟩,
      by simp [createProduct, h1], rfl, rfl⟩
  · simp [transferOwnership, hc, hl]
  · exact ⟨⟨.Transfer, now, nxt, some latest.owner, none, pid2, sig⟩,
      by simp [transferOwnership, hc, hl], rfl, rfl⟩
  · simp [recordRepair, hc, hl]
  · exact ⟨⟨.Repair, now, latest.owner, none, md2, pid2, sig⟩,
      by simp [recordRepair, hc, hl], rfl, rfl⟩

/-- Witness for C8 (amended) on `storeA`: fresh id `"q"`, existing `"p"`. -/
theorem claim8_mutations_return_signature_witness :
    ((createProduct storeA "q" none "z" 2 "sg" "ac").1 = .ok ⟨"sg", "ac"⟩
      ∧ ∃ ev : Event,
          (createProduct storeA "q" none "z" 2 "sg" "ac").2.allTransactions
            = storeA.allTransactions ++ [ev]
          ∧ ev.signature = "sg" ∧ ev.type = .Manufacture)
    ∧ ((transferOwnership storeA "p" evA.owner "b" 2 "sg").1 = .ok ⟨"sg"⟩
      ∧ ∃ ev : Event,
          (transferOwnership storeA "p" evA.owner "b" 2 "sg").2.allTransactions
            = storeA.allTransactions ++ [ev]
          ∧ ev.signature = "sg" ∧ ev.type = .Transfer)
    ∧ ((recordRepair storeA "p" evA.owner (some "fix") 2 "sg").1 = .ok ⟨"sg"⟩
      ∧ ∃ ev : Event,
          (recordRepair storeA "p" evA.owner (some "fix") 2 "sg").2.allTransactions
            = storeA.allTransactions ++ [ev]
          ∧ ev.signature = "sg" ∧ ev.type = .Repair) :=
  claim8_mutations_return_signature storeA "q" "p" "b" "z" none (some "fix")
    2 "sg" "ac" [evA] evA rfl rfl rfl

/-- C9: no query mutates the store — `getProductHistory`,
`getRecentTransactions` and `getAllTransactions` (which sorts a copy of
the GlobalLog, line 272's spread) all return the state they were given. -/
theorem claim9_queries_pure (s : Store) (pid : String) (n : Nat)
    (f : Filters) :
    (getProductHistory s pid).2 = s
    ∧ (getRecentTransactions s n).2 = s
    ∧ (getAllTransactions s f).2 = s := by
  refine ⟨?_, rfl, rfl⟩
  unfold getProductHistory
  cases lookupChain s.productHistory pid <;> rfl

/-- C10: `getRecentTransactions` with limit 0 returns the entire GlobalLog
newest first (JS `slice(-0)` is `slice(0)`), not an empty sequence. -/
theorem claim10_getRecent_zero (s : Store) :
    (getRecentTransactions s 0).1 = s.allTransactions.reverse := by
  simp [getRecentTransactions, sliceLast]

end TrueSource
